import Mathlib

/-!
Verification of the TgBotNotification repository (src/bot.py, src/database.py,
src/google_calendar.py) against its natural-language specification.

The embedding is layered:

* `TgBot` models the body of one iteration of the background poll loop
  `scheduled_meetings_check` in `src/bot.py` (lines 223-441) for a single user,
  followed by the three garbage-collection passes.  Timestamps are modelled as
  UTC epoch seconds (`Int`), i.e. the values of timezone-aware datetimes; the
  naive-datetime pitfall of `safe_parse_datetime` is modelled separately in the
  parsing layer below.  The in-memory dictionaries `known_events`,
  `processed_events` and `started_events` are modelled as partial maps
  `String → Option _` (they are keyed by event id only, exactly as in the code).
  The model assumes a configured `USER_ID` where the code sends without
  checking it (line 270); the `uidSet` flag models the explicit
  `and USER_ID` guards at lines 308 and 337.

* `TgBot.DB` models the sqlite layer of `src/database.py`: the `known_events`
  table (PRIMARY KEY `event_id`, lines 62-71) with `INSERT OR REPLACE`
  semantics (`add_known_event`, lines 118-126) and the membership test
  `is_event_known` (lines 142-147).

* `TgBot.Cal` models the credential gate of `get_upcoming_events` in
  `src/google_calendar.py` (lines 123-132): with no valid credentials the
  function returns the empty list.

* `TgBot.Parse` models `safe_parse_datetime` (src/bot.py lines 173-184)
  together with the observable behaviour of CPython's
  `datetime.fromisoformat` (pre-3.11) on the provider's formats
  (`YYYY-MM-DD`, `YYYY-MM-DDTHH:MM:SS`, optional `±HH:MM` offset; fractional
  seconds are not modelled as the repository's provider strings do not carry
  them), Python string operations (`endswith`, `in`, `replace`), and the
  `TypeError` raised when a naive datetime is compared with an aware one.
-/

namespace TgBot

/-- A calendar event as consumed by the poll loop: provider id, summary,
parsed start/end instants (UTC epoch seconds of the timezone-aware values
produced by `safe_parse_datetime`), and whether `'hangoutLink'` is present. -/
structure Event where
  id : String
  summary : String
  start : Int
  endT : Int
  hangoutLink : Bool
deriving DecidableEq, Repr

/-- Row of the in-memory `known_events` dict (bot.py lines 274-279). -/
structure KnownRec where
  summary : String
  startT : Int
  endT : Int
  discoveredAt : Int
deriving DecidableEq, Repr

/-- Row of the in-memory `processed_events` dict (bot.py lines 314-318). -/
structure ProcRec where
  summary : String
  startT : Int
  notifiedAt : Int
deriving DecidableEq, Repr

/-- Row of the in-memory `started_events` dict (bot.py lines 343-347).
Records written by the loop carry no end time; `endT` is `Option` because the
cleanup pass at lines 363-371 reads `event_data.get('end_time')`, which is
present only in records originating elsewhere (e.g. an old data file). -/
structure StartedRec where
  summary : String
  startT : Int
  endT : Option Int
  notifiedAt : Int
deriving DecidableEq, Repr

/-- Telegram messages sent by the loop, by category and event id. -/
inductive Notification where
  | newMeeting (event_id : String)
  | upcomingReminder (event_id : String)
  | meetingStarted (event_id : String)
deriving DecidableEq, Repr

/-- The event id a notification is about. -/
def Notification.eventId : Notification → String
  | .newMeeting i => i
  | .upcomingReminder i => i
  | .meetingStarted i => i

/-- Recognizes `NewMeeting` notifications. -/
def isNewMeeting : Notification → Bool
  | .newMeeting _ => true
  | _ => false

/-- Python-dict-as-partial-map update. -/
def upd {α : Type} (f : String → Option α) (k : String) (v : α) : String → Option α :=
  fun x => if x = k then some v else f x

/-- First-defined choice on options (used to state lookup lemmas). -/
def orD {α : Type} : Option α → Option α → Option α
  | some v, _ => some v
  | none, b => b

/-- `known_events` dict: event id → record (shared across users in the code). -/
def KnownStore : Type := String → Option KnownRec

/-- `processed_events` dict: event id → record. -/
def ProcStore : Type := String → Option ProcRec

/-- `started_events` dict: event id → record. -/
def StartedStore : Type := String → Option StartedRec

/-- First pass of the loop body (bot.py lines 248-279): for each event not yet
in `known_events`, send a new-meeting message when the event has not started
yet (`start_dt > now`) and has a `hangoutLink`, then record it as known
unconditionally. -/
def newPass (now : Int) : List Event → KnownStore → List Notification →
    KnownStore × List Notification
  | [], known, ns => (known, ns)
  | e :: es, known, ns =>
    if (known e.id).isSome then
      newPass now es known ns
    else
      newPass now es
        (upd known e.id { summary := e.summary, startT := e.start, endT := e.endT,
                          discoveredAt := now })
        (if e.start > now ∧ e.hangoutLink = true then
          ns ++ [Notification.newMeeting e.id]
        else ns)

/-- Second pass of the loop body (bot.py lines 281-354), restricted to events
with a `hangoutLink`: send the 15-minute reminder when
`0 ≤ start_dt - now ≤ 15 minutes` and the event is not in `processed_events`
(recording it there regardless of whether `USER_ID` allowed the send), and
send the started message when `start_dt ≤ now < end_dt` and the event is not
in `started_events` (again recording regardless of the send); the started
record carries no end time. -/
def meetPass (now : Int) (uidSet : Bool) : List Event → ProcStore → StartedStore →
    List Notification → ProcStore × StartedStore × List Notification
  | [], proc, started, ns => (proc, started, ns)
  | e :: es, proc, started, ns =>
    if e.hangoutLink = true then
      let remFire : Prop := proc e.id = none ∧ 0 ≤ e.start - now ∧ e.start - now ≤ 900
      let ns1 := if remFire ∧ uidSet = true then ns ++ [Notification.upcomingReminder e.id] else ns
      let proc1 := if remFire then
          upd proc e.id { summary := e.summary, startT := e.start, notifiedAt := now }
        else proc
      let startFire : Prop := started e.id = none ∧ e.start ≤ now ∧ now < e.endT
      let ns2 := if startFire ∧ uidSet = true then ns1 ++ [Notification.meetingStarted e.id] else ns1
      let started1 := if startFire then
          upd started e.id { summary := e.summary, startT := e.start, endT := none,
                             notifiedAt := now }
        else started
      meetPass now uidSet es proc1 started1 ns2
    else
      meetPass now uidSet es proc started ns

/-- Cleanup of `started_events` (bot.py lines 359-381): remove records whose
stored `end_time` exists and has passed; records without an `end_time` are
kept. -/
def gcStarted (now : Int) (s : StartedStore) : StartedStore :=
  fun x =>
    match s x with
    | none => none
    | some r =>
      match r.endT with
      | none => some r
      | some e => if now > e then none else some r

/-- Cleanup of `processed_events` (bot.py lines 385-407): remove records whose
stored start time is more than 30 minutes in the past. -/
def gcProcessed (now : Int) (p : ProcStore) : ProcStore :=
  fun x =>
    match p x with
    | none => none
    | some r => if now > r.startT + 1800 then none else some r

/-- Cleanup of `known_events` (bot.py lines 411-433): remove records whose
stored end time is more than one day in the past. -/
def gcKnown (now : Int) (k : KnownStore) : KnownStore :=
  fun x =>
    match k x with
    | none => none
    | some r => if now > r.endT + 86400 then none else some r

/-- The three event dictionaries held by the loop. -/
structure BotState where
  known : KnownStore
  processed : ProcStore
  started : StartedStore

/-- The state at first startup, before any data file exists. -/
def emptyBotState : BotState :=
  { known := fun _ => none, processed := fun _ => none, started := fun _ => none }

/-- One iteration of the `while True` body of `scheduled_meetings_check`
(bot.py lines 223-441) for a single user: the new-meeting pass, the
reminder/started pass, then the three cleanup passes.  Returns the updated
state and the notifications sent, in order. -/
def scheduled_meetings_check (st : BotState) (events : List Event) (now : Int)
    (uidSet : Bool) : BotState × List Notification :=
  let kn := newPass now events st.known []
  let ms := meetPass now uidSet events st.processed st.started kn.2
  ({ known := gcKnown now kn.1, processed := gcProcessed now ms.1,
     started := gcStarted now ms.2.1 }, ms.2.2)

/-- Input of one poll cycle: the fetched events, the current instant, and
whether `USER_ID` is configured. -/
structure CycleInput where
  events : List Event
  now : Int
  uidSet : Bool

/-- Run a sequence of poll cycles, collecting all notifications. -/
def runCycles (st : BotState) : List CycleInput → BotState × List Notification
  | [] => (st, [])
  | c :: cs =>
    let step := scheduled_meetings_check st c.events c.now c.uidSet
    let rest := runCycles step.1 cs
    (rest.1, step.2 ++ rest.2)

namespace DB

/-- A row of the sqlite `known_events` table (database.py lines 62-71):
`event_id` is the PRIMARY KEY; `user_id` is a plain column. -/
structure KnownEventRow where
  event_id : String
  summary : String
  start_time : String
  end_time : String
  discovered_at : String
  user_id : String
deriving DecidableEq, Repr

/-- `Database.add_known_event` (database.py lines 118-126):
`INSERT OR REPLACE INTO known_events ...` — on a conflict of the PRIMARY KEY
`event_id` the existing row is deleted and the new row inserted, whatever its
`user_id`.  `discovered_at` is `datetime.now().isoformat()`, passed here as
`now_iso`. -/
def add_known_event (t : List KnownEventRow) (eid summary start_time end_time user_id : String)
    (now_iso : String) : List KnownEventRow :=
  t.filter (fun r => !(r.event_id == eid)) ++
    [{ event_id := eid, summary := summary, start_time := start_time,
       end_time := end_time, discovered_at := now_iso, user_id := user_id }]

/-- `Database.is_event_known` (database.py lines 142-147):
`SELECT 1 FROM known_events WHERE event_id = ? AND user_id = ?`. -/
def is_event_known (t : List KnownEventRow) (eid user_id : String) : Bool :=
  t.any (fun r => r.event_id == eid && r.user_id == user_id)

end DB

namespace Cal

/-- Google credentials as seen by `get_upcoming_events`: the function only
tests truthiness of the object returned by `get_credentials`. -/
structure Credentials where
  valid : Bool
deriving DecidableEq, Repr

/-- The credential gate of `get_upcoming_events` (google_calendar.py lines
123-132): `if not creds: return []` — with no credentials the caller receives
the empty list; otherwise the provider's items are returned unchanged
(line 178 returns all events). -/
def get_upcoming_events (creds : Option Credentials) (apiItems : List Event) : List Event :=
  match creds with
  | none => []
  | some _ => apiItems

end Cal

namespace Parse

/-- A Python `datetime` value: calendar fields plus `tzinfo`, modelled as an
optional fixed UTC offset in minutes (`none` = naive datetime). -/
structure PyDatetime where
  year : Nat
  month : Nat
  day : Nat
  hour : Nat
  minute : Nat
  second : Nat
  tzOffset : Option Int
deriving DecidableEq, Repr

/-- The decimal digit character for `n ≤ 9` (builder for provider strings). -/
def dig : Nat → Char
  | 0 => '0'
  | 1 => '1'
  | 2 => '2'
  | 3 => '3'
  | 4 => '4'
  | 5 => '5'
  | 6 => '6'
  | 7 => '7'
  | 8 => '8'
  | 9 => '9'
  | _ => 'x'

/-- Numeric value of a decimal digit character. -/
def digitVal (c : Char) : Option Nat :=
  if c = '0' then some 0 else if c = '1' then some 1 else if c = '2' then some 2
  else if c = '3' then some 3 else if c = '4' then some 4 else if c = '5' then some 5
  else if c = '6' then some 6 else if c = '7' then some 7 else if c = '8' then some 8
  else if c = '9' then some 9 else none

/-- Two-digit decimal number. -/
def num2 (a b : Char) : Option Nat :=
  match digitVal a, digitVal b with
  | some x, some y => some (10 * x + y)
  | _, _ => none

/-- Four-digit decimal number. -/
def num4 (a b c d : Char) : Option Nat :=
  match digitVal a, digitVal b, digitVal c, digitVal d with
  | some w, some x, some y, some z => some (1000 * w + 100 * x + 10 * y + z)
  | _, _, _, _ => none

/-- Gregorian leap year. -/
def isLeap (y : Nat) : Bool :=
  (y % 4 = 0 && y % 100 != 0) || y % 400 = 0

/-- Number of days of a month, as validated by `datetime`. -/
def daysInMonth (y m : Nat) : Nat :=
  if m = 2 then (if isLeap y then 29 else 28)
  else if m = 4 ∨ m = 6 ∨ m = 9 ∨ m = 11 then 30
  else 31

/-- Trailing UTC-offset part of `datetime.fromisoformat` input: empty (naive)
or exactly `±HH:MM` (CPython also accepts `±HH:MM:SS[.ffffff]`, which the
provider never emits); offsets of 24 hours or more make the `timezone`
constructor raise, folded here into the parse failure. -/
def parseTzTail : List Char → Option (Option Int)
  | [] => some none
  | [sgn, h1, h2, c, m1, m2] =>
    match num2 h1 h2, num2 m1 m2 with
    | some oh, some om =>
      if c = ':' ∧ oh ≤ 23 ∧ om ≤ 59 then
        if sgn = '+' then some (some ((oh : Int) * 60 + om))
        else if sgn = '-' then some (some (-((oh : Int) * 60 + om)))
        else none
      else none
    | _, _ => none
  | _ => none

/-- Time-of-day part of `datetime.fromisoformat` input:
`HH[:MM[:SS]]` followed by the optional offset tail. -/
def parseTime : List Char → Option (Nat × Nat × Nat × Option Int)
  | h1 :: h2 :: ':' :: m1 :: m2 :: ':' :: s1 :: s2 :: rest =>
    match num2 h1 h2, num2 m1 m2, num2 s1 s2, parseTzTail rest with
    | some h, some mi, some s, some tz =>
      if h ≤ 23 ∧ mi ≤ 59 ∧ s ≤ 59 then some (h, mi, s, tz) else none
    | _, _, _, _ => none
  | h1 :: h2 :: ':' :: m1 :: m2 :: rest =>
    match num2 h1 h2, num2 m1 m2, parseTzTail rest with
    | some h, some mi, some tz =>
      if h ≤ 23 ∧ mi ≤ 59 then some (h, mi, 0, tz) else none
    | _, _, _ => none
  | h1 :: h2 :: rest =>
    match num2 h1 h2, parseTzTail rest with
    | some h, some tz => if h ≤ 23 then some (h, 0, 0, tz) else none
    | _, _ => none
  | _ => none

/-- CPython (pre-3.11) `datetime.fromisoformat`, restricted to the shapes the
provider emits: `YYYY-MM-DD` optionally followed by a separator character
(position 10, any character) and `HH[:MM[:SS]][±HH:MM]`; no fractional
seconds.  Returns `none` where Python raises `ValueError`. -/
def fromisoformat : List Char → Option PyDatetime
  | y1 :: y2 :: y3 :: y4 :: c1 :: m1 :: m2 :: c2 :: d1 :: d2 :: rest =>
    match num4 y1 y2 y3 y4, num2 m1 m2, num2 d1 d2 with
    | some y, some m, some d =>
      if c1 = '-' ∧ c2 = '-' ∧ 1 ≤ y ∧ 1 ≤ m ∧ m ≤ 12 ∧ 1 ≤ d ∧ d ≤ daysInMonth y m then
        match rest with
        | [] => some { year := y, month := m, day := d, hour := 0, minute := 0,
                       second := 0, tzOffset := none }
        | _ :: tcs =>
          match parseTime tcs with
          | some (h, mi, s, tz) =>
            some { year := y, month := m, day := d, hour := h, minute := mi,
                   second := s, tzOffset := tz }
          | none => none
      else none
    | _, _, _ => none
  | _ => none

/-- Python `str.endswith` for a single character. -/
def endsWith (c : Char) : List Char → Bool
  | [] => false
  | [x] => x == c
  | _ :: rest => endsWith c rest

/-- Python `c in s` for a single character. -/
def containsChar (c : Char) (cs : List Char) : Bool :=
  cs.any (fun x => x == c)

/-- Python `date_str.replace('Z', '+00:00')`: every `'Z'` is replaced. -/
def replaceAllZ : List Char → List Char
  | [] => []
  | x :: rest =>
    if x = 'Z' then '+' :: '0' :: '0' :: ':' :: '0' :: '0' :: replaceAllZ rest
    else x :: replaceAllZ rest

/-- `safe_parse_datetime` (bot.py lines 173-184).  Branches exactly as the
source: trailing `'Z'` → parse with `'Z'` replaced by `'+00:00'`; else if the
string contains `'+'`, or contains `'-'` and contains `'T'` (Python `and`
binds tighter than `or`) → parse as-is; else → parse and stamp UTC via
`.replace(tzinfo=timezone.utc)`.  Any parse failure yields
`datetime.now(timezone.utc)`, passed here as `nowUtc`. -/
def safe_parse_datetime (cs : List Char) (nowUtc : PyDatetime) : PyDatetime :=
  if endsWith 'Z' cs = true then
    match fromisoformat (replaceAllZ cs) with
    | some dt => dt
    | none => nowUtc
  else if containsChar '+' cs = true ∨ (containsChar '-' cs = true ∧ containsChar 'T' cs = true) then
    match fromisoformat cs with
    | some dt => dt
    | none => nowUtc
  else
    match fromisoformat cs with
    | some dt => { dt with tzOffset := some 0 }
    | none => nowUtc

/-- Days since 1970-01-01 of a civil date (Hinnant's algorithm), used to order
datetimes. -/
def daysFromCivil (y m d : Nat) : Int :=
  let yi : Int := if m ≤ 2 then (y : Int) - 1 else (y : Int)
  let era : Int := (if 0 ≤ yi then yi else yi - 399) / 400
  let yoe : Int := yi - era * 400
  let mp : Int := if m ≤ 2 then (m : Int) + 9 else (m : Int) - 3
  let doy : Int := (153 * mp + 2) / 5 + (d : Int) - 1
  let doe : Int := yoe * 365 + yoe / 4 - yoe / 100 + doy
  era * 146097 + doe - 719468

/-- The instant of a datetime in epoch seconds, shifted by an offset in
minutes. -/
def toKey (dt : PyDatetime) (off : Int) : Int :=
  daysFromCivil dt.year dt.month dt.day * 86400
    + ((dt.hour : Int) * 3600 + (dt.minute : Int) * 60 + (dt.second : Int)) - off * 60

/-- Outcome of a Python comparison: a boolean, or a raised `TypeError`. -/
inductive PyCmp where
  | ok (b : Bool)
  | typeError
deriving DecidableEq, Repr

/-- Python `a > b` on datetimes (bot.py line 259 `start_dt > now`): comparing
an offset-naive datetime with an offset-aware one raises `TypeError`. -/
def pyGT (a b : PyDatetime) : PyCmp :=
  match a.tzOffset, b.tzOffset with
  | none, none => PyCmp.ok (decide (toKey a 0 > toKey b 0))
  | some oa, some ob => PyCmp.ok (decide (toKey a oa > toKey b ob))
  | _, _ => PyCmp.typeError

/-- Two-digit decimal rendering, `n ≤ 99`. -/
def fmt2 (n : Nat) : List Char :=
  [dig (n / 10), dig (n % 10)]

/-- Four-digit decimal rendering, `n ≤ 9999`. -/
def fmt4 (n : Nat) : List Char :=
  [dig (n / 1000), dig (n / 100 % 10), dig (n / 10 % 10), dig (n % 10)]

/-- Provider date-only string `YYYY-MM-DD`. -/
def fmtDate (y m d : Nat) : List Char :=
  fmt4 y ++ '-' :: (fmt2 m ++ '-' :: fmt2 d)

/-- Provider datetime string `YYYY-MM-DDTHH:MM:SS` (no offset suffix). -/
def fmtDateTime (y m d h mi s : Nat) : List Char :=
  fmtDate y m d ++ 'T' :: (fmt2 h ++ ':' :: (fmt2 mi ++ ':' :: fmt2 s))

/-- Provider offset suffix `±HH:MM`. -/
def fmtOffset (sign : Bool) (oh om : Nat) : List Char :=
  (if sign then '+' else '-') :: (fmt2 oh ++ ':' :: fmt2 om)

/-- Minute value of an offset suffix. -/
def offVal (sign : Bool) (oh om : Nat) : Int :=
  if sign then (oh : Int) * 60 + om else -((oh : Int) * 60 + om)

end Parse

/-! ### Helper lemmas about the poll-cycle model -/

theorem upd_self {α : Type} (f : String → Option α) (k : String) (v : α) :
    upd f k v k = some v := by
  simp [upd]

theorem upd_ne {α : Type} (f : String → Option α) {x k : String} (v : α) (h : x ≠ k) :
    upd f k v x = f x := by
  simp [upd, h]

theorem np_known_preserve {now : Int} {es : List Event} {known : KnownStore}
    {ns : List Notification} {x : String} {v : KnownRec} (h : known x = some v) :
    (newPass now es known ns).1 x = some v := by
  induction es generalizing known ns with
  | nil => simpa [newPass] using h
  | cons e es ih =>
    simp only [newPass]
    by_cases hm : (known e.id).isSome = true
    · rw [if_pos hm]
      exact ih h
    · rw [if_neg hm]
      apply ih
      rcases eq_or_ne x e.id with hx | hx
      · subst hx
        rw [h] at hm
        simp at hm
      · rw [upd_ne _ _ hx]
        exact h

theorem id_mem_of_mem {es : List Event} {e : Event} (he : e ∈ es) :
    e.id ∈ es.map Event.id :=
  List.mem_map_of_mem _ he

theorem np_emit_mem {now : Int} {es : List Event} {known : KnownStore}
    {ns : List Notification} {n : Notification} (h : n ∈ (newPass now es known ns).2) :
    n ∈ ns ∨ ∃ e, e ∈ es ∧ n = Notification.newMeeting e.id := by
  induction es generalizing known ns with
  | nil => exact Or.inl (by simpa [newPass] using h)
  | cons e es ih =>
    simp only [newPass] at h
    by_cases hm : (known e.id).isSome = true
    · rw [if_pos hm] at h
      rcases ih h with h1 | ⟨e', he', hn⟩
      · exact Or.inl h1
      · exact Or.inr ⟨e', List.mem_cons_of_mem _ he', hn⟩
    · rw [if_neg hm] at h
      rcases ih h with h1 | ⟨e', he', hn⟩
      · by_cases hc : e.start > now ∧ e.hangoutLink = true
        · rw [if_pos hc] at h1
          rcases List.mem_append.1 h1 with h2 | h2
          · exact Or.inl h2
          · exact Or.inr ⟨e, List.mem_cons_self e es, by simpa using h2⟩
        · rw [if_neg hc] at h1
          exact Or.inl h1
      · exact Or.inr ⟨e', List.mem_cons_of_mem _ he', hn⟩

theorem np_no_emit {now : Int} {es : List Event} {known : KnownStore}
    {ns : List Notification}
    (h : ∀ e ∈ es, (known e.id).isSome = true ∨ ¬(e.start > now ∧ e.hangoutLink = true)) :
    (newPass now es known ns).2 = ns := by
  induction es generalizing known ns with
  | nil => simp [newPass]
  | cons e es ih =>
    simp only [newPass]
    by_cases hm : (known e.id).isSome = true
    · rw [if_pos hm]
      exact ih fun e' he' => h e' (List.mem_cons_of_mem _ he')
    · rw [if_neg hm]
      have hc : ¬(e.start > now ∧ e.hangoutLink = true) := by
        rcases h e (List.mem_cons_self e es) with h1 | h1
        · exact absurd h1 hm
        · exact h1
      rw [if_neg hc]
      apply ih
      intro e' he'
      rcases h e' (List.mem_cons_of_mem _ he') with h1 | h1
      · left
        rcases eq_or_ne e'.id e.id with hx | hx
        · rw [hx, upd_self]
          rfl
        · rw [upd_ne _ _ hx]
          exact h1
      · exact Or.inr h1

theorem np_lookup_not_mem {now : Int} {es : List Event} {known : KnownStore}
    {ns : List Notification} {x : String} (h : ∀ e ∈ es, e.id ≠ x) :
    (newPass now es known ns).1 x = known x := by
  induction es generalizing known ns with
  | nil => simp [newPass]
  | cons e es ih =>
    simp only [newPass]
    by_cases hm : (known e.id).isSome = true
    · rw [if_pos hm]
      exact ih fun e' he' => h e' (List.mem_cons_of_mem _ he')
    · rw [if_neg hm]
      rw [ih fun e' he' => h e' (List.mem_cons_of_mem _ he')]
      exact upd_ne _ _ fun hx => h e (List.mem_cons_self e es) hx.symm

theorem np_lookup_mem {now : Int} {es : List Event} {known : KnownStore}
    {ns : List Notification} {e : Event} (hnd : (es.map Event.id).Nodup) (he : e ∈ es) :
    (newPass now es known ns).1 e.id
      = orD (known e.id)
          (some { summary := e.summary, startT := e.start, endT := e.endT,
                  discoveredAt := now }) := by
  induction es generalizing known ns with
  | nil => cases he
  | cons a es ih =>
    simp only [List.map_cons, List.nodup_cons] at hnd
    rcases List.mem_cons.1 he with rfl | he'
    · have hni : ∀ e' ∈ es, e'.id ≠ e.id := by
        intro e' he' hx
        exact hnd.1 (hx ▸ id_mem_of_mem he')
      simp only [newPass]
      by_cases hm : (known e.id).isSome = true
      · rw [if_pos hm]
        obtain ⟨v, hv⟩ := Option.isSome_iff_exists.1 hm
        rw [np_lookup_not_mem hni, hv]
        rfl
      · rw [if_neg hm]
        have hnone : known e.id = none := Option.not_isSome_iff_eq_none.1 hm
        rw [np_lookup_not_mem hni, upd_self, hnone]
        rfl
    · have hne : e.id ≠ a.id := fun hx => hnd.1 (hx ▸ id_mem_of_mem he')
      simp only [newPass]
      by_cases hm : (known a.id).isSome = true
      · rw [if_pos hm]
        exact ih hnd.2 he'
      · rw [if_neg hm]
        rw [ih hnd.2 he', upd_ne _ _ hne]

theorem np_count {now : Int} {es : List Event} {known : KnownStore}
    {ns : List Notification} (h0 : ∀ e ∈ es, known e.id = none)
    (hnd : (es.map Event.id).Nodup) :
    ((newPass now es known ns).2).countP isNewMeeting
      = ns.countP isNewMeeting
        + es.countP (fun e => decide (e.start > now ∧ e.hangoutLink = true)) := by
  induction es generalizing known ns with
  | nil => simp [newPass]
  | cons e es ih =>
    simp only [List.map_cons, List.nodup_cons] at hnd
    have hm : ¬((known e.id).isSome = true) := by
      rw [h0 e (List.mem_cons_self e es)]
      simp
    simp only [newPass]
    rw [if_neg hm]
    have h0' : ∀ e' ∈ es, upd known e.id
        { summary := e.summary, startT := e.start, endT := e.endT, discoveredAt := now }
        e'.id = none := by
      intro e' he'
      have hne : e'.id ≠ e.id := fun hx => hnd.1 (hx ▸ id_mem_of_mem he')
      rw [upd_ne _ _ hne]
      exact h0 e' (List.mem_cons_of_mem _ he')
    rw [ih h0' hnd.2]
    by_cases hc : e.start > now ∧ e.hangoutLink = true
    · rw [if_pos hc]
      simp [List.countP_cons, List.countP_append, isNewMeeting, hc]
      omega
    · rw [if_neg hc]
      simp [List.countP_cons, hc]

theorem orD_none {α : Type} (a : Option α) : orD a none = a := by
  cases a <;> rfl

theorem mp_proc_preserve {now : Int} {uid : Bool} {es : List Event} {proc : ProcStore}
    {started : StartedStore} {ns : List Notification} {x : String} {v : ProcRec}
    (h : proc x = some v) :
    (meetPass now uid es proc started ns).1 x = some v := by
  induction es generalizing proc started ns with
  | nil => simpa [meetPass] using h
  | cons e es ih =>
    simp only [meetPass]
    by_cases hl : e.hangoutLink = true
    · rw [if_pos hl]
      apply ih
      by_cases hr : proc e.id = none ∧ 0 ≤ e.start - now ∧ e.start - now ≤ 900
      · rw [if_pos hr]
        have hne : x ≠ e.id := by
          intro hx
          rw [hx, hr.1] at h
          cases h
        rw [upd_ne _ _ hne]
        exact h
      · rw [if_neg hr]
        exact h
    · rw [if_neg hl]
      exact ih h

theorem mp_started_preserve {now : Int} {uid : Bool} {es : List Event} {proc : ProcStore}
    {started : StartedStore} {ns : List Notification} {x : String} {v : StartedRec}
    (h : started x = some v) :
    (meetPass now uid es proc started ns).2.1 x = some v := by
  induction es generalizing proc started ns with
  | nil => simpa [meetPass] using h
  | cons e es ih =>
    simp only [meetPass]
    by_cases hl : e.hangoutLink = true
    · rw [if_pos hl]
      apply ih
      by_cases hs : started e.id = none ∧ e.start ≤ now ∧ now < e.endT
      · rw [if_pos hs]
        have hne : x ≠ e.id := by
          intro hx
          rw [hx, hs.1] at h
          cases h
        rw [upd_ne _ _ hne]
        exact h
      · rw [if_neg hs]
        exact h
    · rw [if_neg hl]
      exact ih h

theorem mp_emit_mem {now : Int} {uid : Bool} {es : List Event} {proc : ProcStore}
    {started : StartedStore} {ns : List Notification} {n : Notification}
    (h : n ∈ (meetPass now uid es proc started ns).2.2) :
    n ∈ ns ∨ ∃ e, e ∈ es ∧
      (n = Notification.upcomingReminder e.id ∨ n = Notification.meetingStarted e.id) := by
  induction es generalizing proc started ns with
  | nil => exact Or.inl (by simpa [meetPass] using h)
  | cons e es ih =>
    simp only [meetPass] at h
    by_cases hl : e.hangoutLink = true
    · rw [if_pos hl] at h
      rcases ih h with h1 | ⟨e', he', hn⟩
      · -- n is in ns2; peel off the two conditional appends
        by_cases hs : (started e.id = none ∧ e.start ≤ now ∧ now < e.endT) ∧ uid = true
        · rw [if_pos hs] at h1
          rcases List.mem_append.1 h1 with h2 | h2
          · by_cases hr : (proc e.id = none ∧ 0 ≤ e.start - now ∧ e.start - now ≤ 900) ∧
                uid = true
            · rw [if_pos hr] at h2
              rcases List.mem_append.1 h2 with h3 | h3
              · exact Or.inl h3
              · exact Or.inr ⟨e, List.mem_cons_self e es, Or.inl (by simpa using h3)⟩
            · rw [if_neg hr] at h2
              exact Or.inl h2
          · exact Or.inr ⟨e, List.mem_cons_self e es, Or.inr (by simpa using h2)⟩
        · rw [if_neg hs] at h1
          by_cases hr : (proc e.id = none ∧ 0 ≤ e.start - now ∧ e.start - now ≤ 900) ∧
              uid = true
          · rw [if_pos hr] at h1
            rcases List.mem_append.1 h1 with h3 | h3
            · exact Or.inl h3
            · exact Or.inr ⟨e, List.mem_cons_self e es, Or.inl (by simpa using h3)⟩
          · rw [if_neg hr] at h1
            exact Or.inl h1
      · exact Or.inr ⟨e', List.mem_cons_of_mem _ he', hn⟩
    · rw [if_neg hl] at h
      rcases ih h with h1 | ⟨e', he', hn⟩
      · exact Or.inl h1
      · exact Or.inr ⟨e', List.mem_cons_of_mem _ he', hn⟩

theorem mp_no_emit {now : Int} {uid : Bool} {es : List Event} {proc : ProcStore}
    {started : StartedStore} {ns : List Notification}
    (h : ∀ e ∈ es, e.hangoutLink = true →
      ((proc e.id).isSome = true ∨ ¬(0 ≤ e.start - now ∧ e.start - now ≤ 900)) ∧
      ((started e.id).isSome = true ∨ ¬(e.start ≤ now ∧ now < e.endT))) :
    (meetPass now uid es proc started ns).2.2 = ns := by
  induction es generalizing proc started ns with
  | nil => simp [meetPass]
  | cons e es ih =>
    simp only [meetPass]
    by_cases hl : e.hangoutLink = true
    · rw [if_pos hl]
      obtain ⟨hp, hs⟩ := h e (List.mem_cons_self e es) hl
      have hnr : ¬(proc e.id = none ∧ 0 ≤ e.start - now ∧ e.start - now ≤ 900) := by
        rintro ⟨h1, h2⟩
        rcases hp with h3 | h3
        · rw [h1] at h3
          cases h3
        · exact h3 h2
      have hns : ¬(started e.id = none ∧ e.start ≤ now ∧ now < e.endT) := by
        rintro ⟨h1, h2⟩
        rcases hs with h3 | h3
        · rw [h1] at h3
          cases h3
        · exact h3 h2
      have hnr2 : ¬((proc e.id = none ∧ 0 ≤ e.start - now ∧ e.start - now ≤ 900) ∧
          uid = true) := fun hc => hnr hc.1
      have hns2 : ¬((started e.id = none ∧ e.start ≤ now ∧ now < e.endT) ∧
          uid = true) := fun hc => hns hc.1
      rw [if_neg hnr, if_neg hns, if_neg hnr2, if_neg hns2]
      exact ih fun e' he' => h e' (List.mem_cons_of_mem _ he')
    · rw [if_neg hl]
      exact ih fun e' he' => h e' (List.mem_cons_of_mem _ he')

theorem mp_proc_lookup_not_mem {now : Int} {uid : Bool} {es : List Event} {proc : ProcStore}
    {started : StartedStore} {ns : List Notification} {x : String}
    (h : ∀ e ∈ es, e.id ≠ x) :
    (meetPass now uid es proc started ns).1 x = proc x := by
  induction es generalizing proc started ns with
  | nil => simp [meetPass]
  | cons e es ih =>
    simp only [meetPass]
    by_cases hl : e.hangoutLink = true
    · rw [if_pos hl]
      rw [ih fun e' he' => h e' (List.mem_cons_of_mem _ he')]
      by_cases hr : proc e.id = none ∧ 0 ≤ e.start - now ∧ e.start - now ≤ 900
      · rw [if_pos hr]
        exact upd_ne _ _ fun hx => h e (List.mem_cons_self e es) hx.symm
      · rw [if_neg hr]
    · rw [if_neg hl]
      exact ih fun e' he' => h e' (List.mem_cons_of_mem _ he')

theorem mp_started_lookup_not_mem {now : Int} {uid : Bool} {es : List Event} {proc : ProcStore}
    {started : StartedStore} {ns : List Notification} {x : String}
    (h : ∀ e ∈ es, e.id ≠ x) :
    (meetPass now uid es proc started ns).2.1 x = started x := by
  induction es generalizing proc started ns with
  | nil => simp [meetPass]
  | cons e es ih =>
    simp only [meetPass]
    by_cases hl : e.hangoutLink = true
    · rw [if_pos hl]
      rw [ih fun e' he' => h e' (List.mem_cons_of_mem _ he')]
      by_cases hs : started e.id = none ∧ e.start ≤ now ∧ now < e.endT
      · rw [if_pos hs]
        exact upd_ne _ _ fun hx => h e (List.mem_cons_self e es) hx.symm
      · rw [if_neg hs]
    · rw [if_neg hl]
      exact ih fun e' he' => h e' (List.mem_cons_of_mem _ he')

theorem mp_proc_lookup {now : Int} {uid : Bool} {es : List Event} {proc : ProcStore}
    {started : StartedStore} {ns : List Notification} {e : Event}
    (hnd : (es.map Event.id).Nodup) (he : e ∈ es) :
    (meetPass now uid es proc started ns).1 e.id
      = orD (proc e.id)
          (if e.hangoutLink = true ∧ 0 ≤ e.start - now ∧ e.start - now ≤ 900 then
            some { summary := e.summary, startT := e.start, notifiedAt := now }
          else none) := by
  induction es generalizing proc started ns with
  | nil => cases he
  | cons a es ih =>
    simp only [List.map_cons, List.nodup_cons] at hnd
    rcases List.mem_cons.1 he with rfl | he'
    · have hni : ∀ e' ∈ es, e'.id ≠ e.id := by
        intro e' he' hx
        exact hnd.1 (hx ▸ id_mem_of_mem he')
      simp only [meetPass]
      by_cases hl : e.hangoutLink = true
      · rw [if_pos hl]
        by_cases hr : proc e.id = none ∧ 0 ≤ e.start - now ∧ e.start - now ≤ 900
        · rw [if_pos hr]
          rw [mp_proc_lookup_not_mem hni, upd_self, hr.1, if_pos ⟨hl, hr.2⟩]
          rfl
        · rw [if_neg hr, mp_proc_lookup_not_mem hni]
          cases hp : proc e.id with
          | some v => rfl
          | none =>
            have hw : ¬(0 ≤ e.start - now ∧ e.start - now ≤ 900) := fun hw => hr ⟨hp, hw⟩
            rw [if_neg fun hc => hw hc.2]
            rfl
      · rw [if_neg hl, mp_proc_lookup_not_mem hni, if_neg fun hc => hl hc.1]
        exact (orD_none _).symm
    · have hne : e.id ≠ a.id := fun hx => hnd.1 (hx ▸ id_mem_of_mem he')
      simp only [meetPass]
      by_cases hl : a.hangoutLink = true
      · rw [if_pos hl]
        rw [ih hnd.2 he']
        by_cases hr : proc a.id = none ∧ 0 ≤ a.start - now ∧ a.start - now ≤ 900
        · rw [if_pos hr, upd_ne _ _ hne]
        · rw [if_neg hr]
      · rw [if_neg hl]
        exact ih hnd.2 he'

theorem mp_started_lookup {now : Int} {uid : Bool} {es : List Event} {proc : ProcStore}
    {started : StartedStore} {ns : List Notification} {e : Event}
    (hnd : (es.map Event.id).Nodup) (he : e ∈ es) :
    (meetPass now uid es proc started ns).2.1 e.id
      = orD (started e.id)
          (if e.hangoutLink = true ∧ e.start ≤ now ∧ now < e.endT then
            some { summary := e.summary, startT := e.start, endT := none, notifiedAt := now }
          else none) := by
  induction es generalizing proc started ns with
  | nil => cases he
  | cons a es ih =>
    simp only [List.map_cons, List.nodup_cons] at hnd
    rcases List.mem_cons.1 he with rfl | he'
    · have hni : ∀ e' ∈ es, e'.id ≠ e.id := by
        intro e' he' hx
        exact hnd.1 (hx ▸ id_mem_of_mem he')
      simp only [meetPass]
      by_cases hl : e.hangoutLink = true
      · rw [if_pos hl]
        by_cases hs : started e.id = none ∧ e.start ≤ now ∧ now < e.endT
        · rw [if_pos hs]
          rw [mp_started_lookup_not_mem hni, upd_self, hs.1, if_pos ⟨hl, hs.2⟩]
          rfl
        · rw [if_neg hs, mp_started_lookup_not_mem hni]
          cases hp : started e.id with
          | some v => rfl
          | none =>
            have hw : ¬(e.start ≤ now ∧ now < e.endT) := fun hw => hs ⟨hp, hw⟩
            rw [if_neg fun hc => hw hc.2]
            rfl
      · rw [if_neg hl, mp_started_lookup_not_mem hni, if_neg fun hc => hl hc.1]
        exact (orD_none _).symm
    · have hne : e.id ≠ a.id := fun hx => hnd.1 (hx ▸ id_mem_of_mem he')
      simp only [meetPass]
      by_cases hl : a.hangoutLink = true
      · rw [if_pos hl]
        rw [ih hnd.2 he']
        by_cases hs : started a.id = none ∧ a.start ≤ now ∧ now < a.endT
        · rw [if_pos hs, upd_ne _ _ hne]
        · rw [if_neg hs]
      · rw [if_neg hl]
        exact ih hnd.2 he'

theorem mp_no_reminder {now : Int} {uid : Bool} {es : List Event} {proc : ProcStore}
    {started : StartedStore} {ns : List Notification} {x : String}
    (hx : (proc x).isSome = true) {n : Notification}
    (h : n ∈ (meetPass now uid es proc started ns).2.2) :
    n ∈ ns ∨ n ≠ Notification.upcomingReminder x := by
  induction es generalizing proc started ns with
  | nil => exact Or.inl (by simpa [meetPass] using h)
  | cons e es ih =>
    simp only [meetPass] at h
    by_cases hl : e.hangoutLink = true
    · rw [if_pos hl] at h
      have hx1 : ((if proc e.id = none ∧ 0 ≤ e.start - now ∧ e.start - now ≤ 900 then
          upd proc e.id { summary := e.summary, startT := e.start, notifiedAt := now }
        else proc) x).isSome = true := by
        by_cases hr : proc e.id = none ∧ 0 ≤ e.start - now ∧ e.start - now ≤ 900
        · rw [if_pos hr]
          have hne : x ≠ e.id := by
            intro hxe
            rw [hxe, hr.1] at hx
            cases hx
          rw [upd_ne _ _ hne]
          exact hx
        · rw [if_neg hr]
          exact hx
      rcases ih hx1 h with h1 | h1
      · by_cases hs : (started e.id = none ∧ e.start ≤ now ∧ now < e.endT) ∧ uid = true
        · rw [if_pos hs] at h1
          rcases List.mem_append.1 h1 with h2 | h2
          · by_cases hr : (proc e.id = none ∧ 0 ≤ e.start - now ∧ e.start - now ≤ 900) ∧
                uid = true
            · rw [if_pos hr] at h2
              rcases List.mem_append.1 h2 with h3 | h3
              · exact Or.inl h3
              · refine Or.inr fun hc => ?_
                rw [List.mem_singleton.1 h3] at hc
                injection hc with hi
                rw [← hi, hr.1.1] at hx
                cases hx
            · rw [if_neg hr] at h2
              exact Or.inl h2
          · refine Or.inr fun hc => ?_
            rw [List.mem_singleton.1 h2] at hc
            cases hc
        · rw [if_neg hs] at h1
          by_cases hr : (proc e.id = none ∧ 0 ≤ e.start - now ∧ e.start - now ≤ 900) ∧
              uid = true
          · rw [if_pos hr] at h1
            rcases List.mem_append.1 h1 with h3 | h3
            · exact Or.inl h3
            · refine Or.inr fun hc => ?_
              rw [List.mem_singleton.1 h3] at hc
              injection hc with hi
              rw [← hi, hr.1.1] at hx
              cases hx
          · rw [if_neg hr] at h1
            exact Or.inl h1
      · exact Or.inr h1
    · rw [if_neg hl] at h
      exact ih hx h

theorem mp_started_none_endT {now : Int} {uid : Bool} {es : List Event} {proc : ProcStore}
    {started : StartedStore} {ns : List Notification} {x : String}
    (h : started x = none ∨ ∃ s t m, started x = some ⟨s, t, none, m⟩) :
    (meetPass now uid es proc started ns).2.1 x = none ∨
      ∃ s t m, (meetPass now uid es proc started ns).2.1 x = some ⟨s, t, none, m⟩ := by
  induction es generalizing proc started ns with
  | nil => simpa [meetPass] using h
  | cons e es ih =>
    simp only [meetPass]
    by_cases hl : e.hangoutLink = true
    · rw [if_pos hl]
      apply ih
      by_cases hs : started e.id = none ∧ e.start ≤ now ∧ now < e.endT
      · rw [if_pos hs]
        rcases eq_or_ne x e.id with rfl | hne
        · rw [upd_self]
          exact Or.inr ⟨e.summary, e.start, now, rfl⟩
        · rw [upd_ne _ _ hne]
          exact h
      · rw [if_neg hs]
        exact h
    · rw [if_neg hl]
      exact ih h

theorem mp_count_new {now : Int} {uid : Bool} {es : List Event} {proc : ProcStore}
    {started : StartedStore} {ns : List Notification} :
    ((meetPass now uid es proc started ns).2.2).countP isNewMeeting
      = ns.countP isNewMeeting := by
  induction es generalizing proc started ns with
  | nil => simp [meetPass]
  | cons e es ih =>
    simp only [meetPass]
    by_cases hl : e.hangoutLink = true
    · rw [if_pos hl, ih]
      by_cases hs : (started e.id = none ∧ e.start ≤ now ∧ now < e.endT) ∧ uid = true
      · rw [if_pos hs]
        by_cases hr : (proc e.id = none ∧ 0 ≤ e.start - now ∧ e.start - now ≤ 900) ∧
            uid = true
        · rw [if_pos hr]
          simp [List.countP_append, isNewMeeting]
        · rw [if_neg hr]
          simp [List.countP_append, isNewMeeting]
      · rw [if_neg hs]
        by_cases hr : (proc e.id = none ∧ 0 ≤ e.start - now ∧ e.start - now ≤ 900) ∧
            uid = true
        · rw [if_pos hr]
          simp [List.countP_append, isNewMeeting]
        · rw [if_neg hr]
    · rw [if_neg hl]
      exact ih

theorem gcKnown_eq {now : Int} {k : KnownStore} {x : String} {r : KnownRec}
    (h : k x = some r) :
    gcKnown now k x = if now > r.endT + 86400 then none else some r := by
  simp [gcKnown, h]

theorem gcKnown_none {now : Int} {k : KnownStore} {x : String} (h : k x = none) :
    gcKnown now k x = none := by
  simp [gcKnown, h]

theorem gcProcessed_eq {now : Int} {p : ProcStore} {x : String} {r : ProcRec}
    (h : p x = some r) :
    gcProcessed now p x = if now > r.startT + 1800 then none else some r := by
  simp [gcProcessed, h]

theorem gcProcessed_none {now : Int} {p : ProcStore} {x : String} (h : p x = none) :
    gcProcessed now p x = none := by
  simp [gcProcessed, h]

theorem gcStarted_keep {now : Int} {s : StartedStore} {x : String} {r : StartedRec}
    (h : s x = some r) (he : r.endT = none) :
    gcStarted now s x = some r := by
  simp [gcStarted, h, he]

theorem gcStarted_eq {now : Int} {s : StartedStore} {x : String} {r : StartedRec} {e : Int}
    (h : s x = some r) (he : r.endT = some e) :
    gcStarted now s x = if now > e then none else some r := by
  simp [gcStarted, h, he]

theorem gcStarted_none {now : Int} {s : StartedStore} {x : String} (h : s x = none) :
    gcStarted now s x = none := by
  simp [gcStarted, h]

namespace Parse

theorem digitVal_dig {n : Nat} (h : n ≤ 9) : digitVal (dig n) = some n := by
  interval_cases n <;> decide

@[simp]
theorem dig_ne_Z (n : Nat) : ¬dig n = 'Z' := by
  unfold dig
  split <;> decide

@[simp]
theorem dig_ne_plus (n : Nat) : ¬dig n = '+' := by
  unfold dig
  split <;> decide

@[simp]
theorem dig_ne_T (n : Nat) : ¬dig n = 'T' := by
  unfold dig
  split <;> decide

@[simp]
theorem dig_beq_Z (n : Nat) : (dig n == 'Z') = false := by
  simp [dig_ne_Z n]

@[simp]
theorem dig_beq_plus (n : Nat) : (dig n == '+') = false := by
  simp [dig_ne_plus n]

@[simp]
theorem dig_beq_T (n : Nat) : (dig n == 'T') = false := by
  simp [dig_ne_T n]

theorem num2_fmt {n : Nat} (h : n ≤ 99) : num2 (dig (n / 10)) (dig (n % 10)) = some n := by
  have h1 : digitVal (dig (n / 10)) = some (n / 10) := digitVal_dig (by omega)
  have h2 : digitVal (dig (n % 10)) = some (n % 10) := digitVal_dig (by omega)
  simp only [num2, h1, h2]
  congr 1
  omega

theorem num4_fmt {n : Nat} (h : n ≤ 9999) :
    num4 (dig (n / 1000)) (dig (n / 100 % 10)) (dig (n / 10 % 10)) (dig (n % 10)) = some n := by
  have h1 : digitVal (dig (n / 1000)) = some (n / 1000) := digitVal_dig (by omega)
  have h2 : digitVal (dig (n / 100 % 10)) = some (n / 100 % 10) := digitVal_dig (by omega)
  have h3 : digitVal (dig (n / 10 % 10)) = some (n / 10 % 10) := digitVal_dig (by omega)
  have h4 : digitVal (dig (n % 10)) = some (n % 10) := digitVal_dig (by omega)
  simp only [num4, h1, h2, h3, h4]
  congr 1
  omega

theorem daysInMonth_le (y m : Nat) : daysInMonth y m ≤ 31 := by
  unfold daysInMonth
  split
  · split <;> omega
  · split <;> omega

theorem parseTzTail_fmt {sign : Bool} {oh om : Nat} (hh : oh ≤ 23) (hm : om ≤ 59) :
    parseTzTail (fmtOffset sign oh om) = some (some (offVal sign oh om)) := by
  have h1 : num2 (dig (oh / 10)) (dig (oh % 10)) = some oh := num2_fmt (by omega)
  have h2 : num2 (dig (om / 10)) (dig (om % 10)) = some om := num2_fmt (by omega)
  cases sign with
  | false => simp [fmtOffset, offVal, fmt2, parseTzTail, h1, h2, hh, hm]
  | true => simp [fmtOffset, offVal, fmt2, parseTzTail, h1, h2, hh, hm]

theorem parseTime_fmt {h mi s : Nat} {tail : List Char} {tz : Option Int}
    (hh : h ≤ 23) (hm : mi ≤ 59) (hs : s ≤ 59) (htz : parseTzTail tail = some tz) :
    parseTime (dig (h / 10) :: dig (h % 10) :: ':' :: dig (mi / 10) :: dig (mi % 10)
        :: ':' :: dig (s / 10) :: dig (s % 10) :: tail)
      = some (h, mi, s, tz) := by
  have h1 : num2 (dig (h / 10)) (dig (h % 10)) = some h := num2_fmt (by omega)
  have h2 : num2 (dig (mi / 10)) (dig (mi % 10)) = some mi := num2_fmt (by omega)
  have h3 : num2 (dig (s / 10)) (dig (s % 10)) = some s := num2_fmt (by omega)
  simp [parseTime, h1, h2, h3, htz, hh, hm, hs]

theorem fromiso_date {y m d : Nat} (hy1 : 1 ≤ y) (hy : y ≤ 9999) (hm1 : 1 ≤ m) (hm : m ≤ 12)
    (hd1 : 1 ≤ d) (hd : d ≤ daysInMonth y m) :
    fromisoformat (fmtDate y m d)
      = some { year := y, month := m, day := d, hour := 0, minute := 0, second := 0,
               tzOffset := none } := by
  have h4 : num4 (dig (y / 1000)) (dig (y / 100 % 10)) (dig (y / 10 % 10)) (dig (y % 10))
      = some y := num4_fmt hy
  have h2m : num2 (dig (m / 10)) (dig (m % 10)) = some m := num2_fmt (by omega)
  have h2d : num2 (dig (d / 10)) (dig (d % 10)) = some d :=
    num2_fmt (by have := daysInMonth_le y m; omega)
  simp [fmtDate, fmt4, fmt2, fromisoformat, h4, h2m, h2d, hy1, hm1, hm, hd1, hd]

theorem fromiso_datetime {y m d h mi s : Nat} {tail : List Char} {tz : Option Int}
    (hy1 : 1 ≤ y) (hy : y ≤ 9999) (hm1 : 1 ≤ m) (hm : m ≤ 12) (hd1 : 1 ≤ d)
    (hd : d ≤ daysInMonth y m) (hh : h ≤ 23) (hmi : mi ≤ 59) (hs : s ≤ 59)
    (htz : parseTzTail tail = some tz) :
    fromisoformat (fmtDateTime y m d h mi s ++ tail)
      = some { year := y, month := m, day := d, hour := h, minute := mi, second := s,
               tzOffset := tz } := by
  have h4 : num4 (dig (y / 1000)) (dig (y / 100 % 10)) (dig (y / 10 % 10)) (dig (y % 10))
      = some y := num4_fmt hy
  have h2m : num2 (dig (m / 10)) (dig (m % 10)) = some m := num2_fmt (by omega)
  have h2d : num2 (dig (d / 10)) (dig (d % 10)) = some d :=
    num2_fmt (by have := daysInMonth_le y m; omega)
  have hpt := parseTime_fmt hh hmi hs htz
  simp [fmtDateTime, fmtDate, fmt4, fmt2, List.append_assoc, fromisoformat, h4, h2m, h2d,
    hpt, hy1, hm1, hm, hd1, hd]

theorem parseTzTail_nil : parseTzTail [] = some none := rfl

theorem safe_parse_trailing_Z {y m d h mi s : Nat} {nw : PyDatetime}
    (hy1 : 1 ≤ y) (hy : y ≤ 9999) (hm1 : 1 ≤ m) (hm : m ≤ 12) (hd1 : 1 ≤ d)
    (hd : d ≤ daysInMonth y m) (hh : h ≤ 23) (hmi : mi ≤ 59) (hs : s ≤ 59) :
    safe_parse_datetime (fmtDateTime y m d h mi s ++ ['Z']) nw
      = { year := y, month := m, day := d, hour := h, minute := mi, second := s,
          tzOffset := some 0 } := by
  have hz : endsWith 'Z' (fmtDateTime y m d h mi s ++ ['Z']) = true := by
    simp [fmtDateTime, fmtDate, fmt4, fmt2, endsWith]
  have hrepl : replaceAllZ (fmtDateTime y m d h mi s ++ ['Z'])
      = fmtDateTime y m d h mi s ++ ['+', '0', '0', ':', '0', '0'] := by
    simp [fmtDateTime, fmtDate, fmt4, fmt2, replaceAllZ]
  have hiso := fromiso_datetime hy1 hy hm1 hm hd1 hd hh hmi hs
    (show parseTzTail ['+', '0', '0', ':', '0', '0'] = some (some 0) from by decide)
  unfold safe_parse_datetime
  rw [if_pos hz, hrepl, hiso]

theorem safe_parse_offset {y m d h mi s oh om : Nat} {sign : Bool} {nw : PyDatetime}
    (hy1 : 1 ≤ y) (hy : y ≤ 9999) (hm1 : 1 ≤ m) (hm : m ≤ 12) (hd1 : 1 ≤ d)
    (hd : d ≤ daysInMonth y m) (hh : h ≤ 23) (hmi : mi ≤ 59) (hs : s ≤ 59)
    (hoh : oh ≤ 23) (hom : om ≤ 59) :
    safe_parse_datetime (fmtDateTime y m d h mi s ++ fmtOffset sign oh om) nw
      = { year := y, month := m, day := d, hour := h, minute := mi, second := s,
          tzOffset := some (offVal sign oh om) } := by
  have hnz : endsWith 'Z' (fmtDateTime y m d h mi s ++ fmtOffset sign oh om) = false := by
    cases sign <;> simp [fmtDateTime, fmtDate, fmt4, fmt2, fmtOffset, endsWith]
  have hbr : containsChar '+' (fmtDateTime y m d h mi s ++ fmtOffset sign oh om) = true ∨
      (containsChar '-' (fmtDateTime y m d h mi s ++ fmtOffset sign oh om) = true ∧
       containsChar 'T' (fmtDateTime y m d h mi s ++ fmtOffset sign oh om) = true) := by
    cases sign with
    | false =>
      right
      constructor <;> simp [containsChar, fmtDateTime, fmtDate, fmt4, fmt2, fmtOffset]
    | true =>
      left
      simp [containsChar, fmtDateTime, fmtDate, fmt4, fmt2, fmtOffset]
  have hiso := fromiso_datetime hy1 hy hm1 hm hd1 hd hh hmi hs
    (@parseTzTail_fmt sign oh om hoh hom)
  unfold safe_parse_datetime
  rw [if_neg (by simp [hnz]), if_pos hbr, hiso]

theorem safe_parse_dateonly {y m d : Nat} {nw : PyDatetime}
    (hy1 : 1 ≤ y) (hy : y ≤ 9999) (hm1 : 1 ≤ m) (hm : m ≤ 12) (hd1 : 1 ≤ d)
    (hd : d ≤ daysInMonth y m) :
    safe_parse_datetime (fmtDate y m d) nw
      = { year := y, month := m, day := d, hour := 0, minute := 0, second := 0,
          tzOffset := some 0 } := by
  have hnz : endsWith 'Z' (fmtDate y m d) = false := by
    simp [fmtDate, fmt4, fmt2, endsWith]
  have hnp : containsChar '+' (fmtDate y m d) = false := by
    simp [containsChar, fmtDate, fmt4, fmt2]
  have hnt : containsChar 'T' (fmtDate y m d) = false := by
    simp [containsChar, fmtDate, fmt4, fmt2]
  have hiso := fromiso_date hy1 hy hm1 hm hd1 hd
  unfold safe_parse_datetime
  rw [if_neg (by simp [hnz]), if_neg (by simp [hnp, hnt]), hiso]

theorem safe_parse_failure {cs : List Char} {nw : PyDatetime}
    (h1 : fromisoformat (replaceAllZ cs) = none) (h2 : fromisoformat cs = none) :
    safe_parse_datetime cs nw = nw := by
  unfold safe_parse_datetime
  by_cases hz : endsWith 'Z' cs = true
  · rw [if_pos hz, h1]
  · rw [if_neg hz]
    by_cases hb : containsChar '+' cs = true ∨
        (containsChar '-' cs = true ∧ containsChar 'T' cs = true)
    · rw [if_pos hb, h2]
    · rw [if_neg hb, h2]

theorem safe_parse_naive {y m d h mi s : Nat} {nw : PyDatetime}
    (hy1 : 1 ≤ y) (hy : y ≤ 9999) (hm1 : 1 ≤ m) (hm : m ≤ 12) (hd1 : 1 ≤ d)
    (hd : d ≤ daysInMonth y m) (hh : h ≤ 23) (hmi : mi ≤ 59) (hs : s ≤ 59) :
    safe_parse_datetime (fmtDateTime y m d h mi s) nw
      = { year := y, month := m, day := d, hour := h, minute := mi, second := s,
          tzOffset := none } := by
  have hnz : endsWith 'Z' (fmtDateTime y m d h mi s) = false := by
    simp [fmtDateTime, fmtDate, fmt4, fmt2, endsWith]
  have hbr : containsChar '+' (fmtDateTime y m d h mi s) = true ∨
      (containsChar '-' (fmtDateTime y m d h mi s) = true ∧
       containsChar 'T' (fmtDateTime y m d h mi s) = true) := by
    right
    constructor <;> simp [containsChar, fmtDateTime, fmtDate, fmt4, fmt2]
  have hiso : fromisoformat (fmtDateTime y m d h mi s)
      = some { year := y, month := m, day := d, hour := h, minute := mi, second := s,
               tzOffset := none } := by
    have := fromiso_datetime hy1 hy hm1 hm hd1 hd hh hmi hs parseTzTail_nil
    simpa using this
  unfold safe_parse_datetime
  rw [if_neg (by simp [hnz]), if_pos hbr, hiso]

end Parse

/-! ### Claim theorems -/

/-- C1, counterexample: with no prior tracked rows (first run), a single
future event with a meet link makes the cycle emit one `NewMeeting`
notification, not zero — the code has no bootstrap suppression and no
first-run marker. -/
theorem c1_counterexample :
    (scheduled_meetings_check emptyBotState
      [{ id := "e1", summary := "m", start := 10000, endT := 20000, hangoutLink := true }]
      0 true).2
      = [Notification.newMeeting "e1"] := by
  decide

/-- C1, amended: for a user with zero prior tracked rows, reconciling the
fetched events emits one `NewMeeting` per event that has a meet link and a
future start (rather than zero), and records every event as known (kept
through the same-cycle cleanup when its end lies within the one-day retention
horizon); there is no per-user first-run marker in the code. -/
theorem c1_bootstrap_amended (events : List Event) (now : Int) (uid : Bool)
    (hnd : (events.map Event.id).Nodup)
    (hret : ∀ e ∈ events, now ≤ e.endT + 86400) :
    ((scheduled_meetings_check emptyBotState events now uid).2).countP isNewMeeting
        = events.countP (fun e => decide (e.start > now ∧ e.hangoutLink = true)) ∧
      ∀ e ∈ events,
        ((scheduled_meetings_check emptyBotState events now uid).1.known e.id).isSome
          = true := by
  constructor
  · show ((meetPass now uid events emptyBotState.processed emptyBotState.started
        (newPass now events emptyBotState.known []).2).2.2).countP isNewMeeting = _
    rw [mp_count_new, np_count (fun e _ => rfl) hnd]
    simp
  · intro e he
    show ((gcKnown now (newPass now events emptyBotState.known []).1) e.id).isSome = true
    have h1 := @np_lookup_mem now events emptyBotState.known [] e hnd he
    have h2 : (newPass now events emptyBotState.known []).1 e.id
        = some { summary := e.summary, startT := e.start, endT := e.endT,
                 discoveredAt := now } := by
      rw [h1]
      rfl
    rw [gcKnown_eq h2, if_neg (by show ¬now > e.endT + 86400; have := hret e he; omega)]
    rfl

/-- C1, witness for the amended theorem at a concrete first run. -/
theorem c1_witness :
    ((scheduled_meetings_check emptyBotState
        [{ id := "a", summary := "m", start := 10000, endT := 20000, hangoutLink := true }]
        0 true).2).countP isNewMeeting
      = [({ id := "a", summary := "m", start := 10000, endT := 20000,
            hangoutLink := true } : Event)].countP
          (fun e => decide (e.start > 0 ∧ e.hangoutLink = true)) ∧
    ∀ e ∈ [({ id := "a", summary := "m", start := 10000, endT := 20000,
              hangoutLink := true } : Event)],
      ((scheduled_meetings_check emptyBotState
          [{ id := "a", summary := "m", start := 10000, endT := 20000,
             hangoutLink := true }] 0 true).1.known e.id).isSome = true :=
  c1_bootstrap_amended _ 0 true (by decide) (by decide)

/-- C2, counterexample: an event tracked as known and then absent from the
poll result produces no notification at all (the code has no cancellation
path, so in particular no `MeetingCancelled`), and its tracked row is
retained, not deleted. -/
theorem c2_counterexample :
    (scheduled_meetings_check
        { known := upd emptyBotState.known "x"
            { summary := "m", startT := 100, endT := 200, discoveredAt := 0 },
          processed := emptyBotState.processed, started := emptyBotState.started }
        [] 150 true).2 = [] ∧
    ((scheduled_meetings_check
        { known := upd emptyBotState.known "x"
            { summary := "m", startT := 100, endT := 200, discoveredAt := 0 },
          processed := emptyBotState.processed, started := emptyBotState.started }
        [] 150 true).1.known "x").isSome = true := by
  decide

/-- C2, amended: if an event is tracked and then absent from the current poll
result, the cycle emits no notification about it at all (there is no
cancellation notification in the code) and its row is not deleted on absence:
it is kept exactly until the cleanup pass removes it, one day after its
recorded end time.  In particular every later poll without the event also
emits nothing about it. -/
theorem c2_cancellation_amended (st : BotState) (events : List Event) (now : Int)
    (uid : Bool) (x : String) (r : KnownRec)
    (hx : st.known x = some r) (habs : ∀ e ∈ events, e.id ≠ x) :
    (∀ n ∈ (scheduled_meetings_check st events now uid).2, n.eventId ≠ x) ∧
      (scheduled_meetings_check st events now uid).1.known x
        = if now > r.endT + 86400 then none else some r := by
  constructor
  · intro n hn
    have hn2 : n ∈ (meetPass now uid events st.processed st.started
        (newPass now events st.known []).2).2.2 := hn
    rcases mp_emit_mem hn2 with h1 | ⟨e, he, hne⟩
    · rcases np_emit_mem h1 with h2 | ⟨e, he, hne⟩
      · cases h2
      · rw [hne]
        exact habs e he
    · rcases hne with h | h <;> rw [h] <;> exact habs e he
  · have h1 : (newPass now events st.known []).1 x = some r := by
      rw [np_lookup_not_mem habs, hx]
    show gcKnown now (newPass now events st.known []).1 x = _
    rw [gcKnown_eq h1]

/-- C2, witness for the amended theorem: a tracked event absent from a poll
triggers nothing and stays stored. -/
theorem c2_witness :
    (∀ n ∈ (scheduled_meetings_check
        { known := upd emptyBotState.known "x"
            { summary := "m", startT := 100, endT := 200, discoveredAt := 0 },
          processed := emptyBotState.processed, started := emptyBotState.started }
        [{ id := "y", summary := "o", start := 5000, endT := 6000, hangoutLink := true }]
        150 true).2, n.eventId ≠ "x") ∧
    (scheduled_meetings_check
        { known := upd emptyBotState.known "x"
            { summary := "m", startT := 100, endT := 200, discoveredAt := 0 },
          processed := emptyBotState.processed, started := emptyBotState.started }
        [{ id := "y", summary := "o", start := 5000, endT := 6000, hangoutLink := true }]
        150 true).1.known "x"
      = if (150 : Int) > 200 + 86400 then none
        else some { summary := "m", startT := 100, endT := 200, discoveredAt := 0 } :=
  c2_cancellation_amended _ _ 150 true "x"
    { summary := "m", startT := 100, endT := 200, discoveredAt := 0 } (by decide) (by decide)

/-- C4, counterexample: reconciliation is not idempotent.  A tracked event
whose stored end time lies more than the one-day retention horizon in the
past, while the live event's start has been moved to the future, is silently
garbage-collected in the first run; the second identical run (same events,
same time) then re-announces it as a new meeting. -/
theorem c4_counterexample :
    (scheduled_meetings_check
      (scheduled_meetings_check
        { known := upd emptyBotState.known "x"
            { summary := "m", startT := 0, endT := 0, discoveredAt := 0 },
          processed := emptyBotState.processed, started := emptyBotState.started }
        [{ id := "x", summary := "m", start := 1000100, endT := 1000200,
           hangoutLink := true }] 1000000 true).1
      [{ id := "x", summary := "m", start := 1000100, endT := 1000200,
         hangoutLink := true }] 1000000 true).2
      = [Notification.newMeeting "x"] := by
  decide

/-- C4, amended: running the cycle twice with the same event list and the same
current time yields an empty second notification batch, provided the event
ids are distinct, each event has `start ≤ end`, and no persisted row backing a
listed event is stale enough to be garbage-collected at `now` (known row
within one day past its stored end, processed row within 30 minutes past its
stored start, started row's stored end not yet passed).  The empty store
satisfies these conditions vacuously. -/
theorem c4_idempotent_amended (st : BotState) (events : List Event) (now : Int) (uid : Bool)
    (hnd : (events.map Event.id).Nodup)
    (hse : ∀ e ∈ events, e.start ≤ e.endT)
    (hk : ∀ e ∈ events, ∀ r, st.known e.id = some r → now ≤ r.endT + 86400)
    (hp : ∀ e ∈ events, ∀ r, st.processed e.id = some r → now ≤ r.startT + 1800)
    (hst : ∀ e ∈ events, ∀ r et, st.started e.id = some r → r.endT = some et → now ≤ et) :
    (scheduled_meetings_check (scheduled_meetings_check st events now uid).1
      events now uid).2 = [] := by
  have hknown : ∀ e ∈ events,
      (((scheduled_meetings_check st events now uid).1).known e.id).isSome = true ∨
        ¬(e.start > now ∧ e.hangoutLink = true) := by
    intro e he
    have h1 := @np_lookup_mem now events st.known [] e hnd he
    show ((gcKnown now (newPass now events st.known []).1) e.id).isSome = true ∨ _
    cases hkx : st.known e.id with
    | some r =>
      left
      have h2 : (newPass now events st.known []).1 e.id = some r := by
        rw [h1, hkx]
        rfl
      rw [gcKnown_eq h2, if_neg (by have := hk e he r hkx; omega)]
      rfl
    | none =>
      have h2 : (newPass now events st.known []).1 e.id
          = some { summary := e.summary, startT := e.start, endT := e.endT,
                   discoveredAt := now } := by
        rw [h1, hkx]
        rfl
      by_cases hfut : e.start > now
      · left
        rw [gcKnown_eq h2,
          if_neg (by show ¬now > e.endT + 86400; have := hse e he; omega)]
        rfl
      · right
        exact fun hc => hfut hc.1
  have hproc : ∀ e ∈ events, e.hangoutLink = true →
      ((((scheduled_meetings_check st events now uid).1).processed e.id).isSome = true ∨
        ¬(0 ≤ e.start - now ∧ e.start - now ≤ 900)) := by
    intro e he hl
    have h1 := @mp_proc_lookup now uid events st.processed st.started
      (newPass now events st.known []).2 e hnd he
    show ((gcProcessed now (meetPass now uid events st.processed st.started
        (newPass now events st.known []).2).1) e.id).isSome = true ∨ _
    cases hpx : st.processed e.id with
    | some r =>
      left
      have h2 : (meetPass now uid events st.processed st.started
          (newPass now events st.known []).2).1 e.id = some r := by
        rw [h1, hpx]
        rfl
      rw [gcProcessed_eq h2, if_neg (by have := hp e he r hpx; omega)]
      rfl
    | none =>
      by_cases hw : 0 ≤ e.start - now ∧ e.start - now ≤ 900
      · left
        have h2 : (meetPass now uid events st.processed st.started
            (newPass now events st.known []).2).1 e.id
            = some { summary := e.summary, startT := e.start, notifiedAt := now } := by
          rw [h1, hpx, if_pos ⟨hl, hw⟩]
          rfl
        rw [gcProcessed_eq h2, if_neg (by show ¬now > e.start + 1800; omega)]
        rfl
      · right
        exact hw
  have hstart : ∀ e ∈ events, e.hangoutLink = true →
      ((((scheduled_meetings_check st events now uid).1).started e.id).isSome = true ∨
        ¬(e.start ≤ now ∧ now < e.endT)) := by
    intro e he hl
    have h1 := @mp_started_lookup now uid events st.processed st.started
      (newPass now events st.known []).2 e hnd he
    show ((gcStarted now (meetPass now uid events st.processed st.started
        (newPass now events st.known []).2).2.1) e.id).isSome = true ∨ _
    cases hsx : st.started e.id with
    | some r =>
      left
      have h2 : (meetPass now uid events st.processed st.started
          (newPass now events st.known []).2).2.1 e.id = some r := by
        rw [h1, hsx]
        rfl
      cases hre : r.endT with
      | none =>
        rw [gcStarted_keep h2 hre]
        rfl
      | some et =>
        rw [gcStarted_eq h2 hre, if_neg (by have := hst e he r et hsx hre; omega)]
        rfl
    | none =>
      by_cases hw : e.start ≤ now ∧ now < e.endT
      · left
        have h2 : (meetPass now uid events st.processed st.started
            (newPass now events st.known []).2).2.1 e.id
            = some { summary := e.summary, startT := e.start, endT := none,
                     notifiedAt := now } := by
          rw [h1, hsx, if_pos ⟨hl, hw⟩]
          rfl
        rw [gcStarted_keep h2 rfl]
        rfl
      · right
        exact hw
  show (meetPass now uid events (scheduled_meetings_check st events now uid).1.processed
      (scheduled_meetings_check st events now uid).1.started
      (newPass now events (scheduled_meetings_check st events now uid).1.known []).2).2.2 = []
  rw [np_no_emit hknown]
  exact mp_no_emit fun e he hl => ⟨hproc e he hl, hstart e he hl⟩

/-- C4, witness for the amended theorem: second identical run from the empty
store emits nothing. -/
theorem c4_witness :
    (scheduled_meetings_check
      (scheduled_meetings_check emptyBotState
        [{ id := "a", summary := "m", start := 100, endT := 200, hangoutLink := true }]
        0 true).1
      [{ id := "a", summary := "m", start := 100, endT := 200, hangoutLink := true }]
      0 true).2 = [] :=
  c4_idempotent_amended emptyBotState _ 0 true (by decide) (by decide)
    (fun _ _ r h => Option.noConfusion h) (fun _ _ r h => Option.noConfusion h)
    (fun _ _ r et h _ => Option.noConfusion h)

/-- C5, counterexample: `get_upcoming_events` returns the same empty list for
a failed fetch (no usable credential, even though the provider holds an
event) as for a successful fetch of zero events — failure is not reported
distinctly from "zero events". -/
theorem c5_counterexample :
    Cal.get_upcoming_events none
        [{ id := "e1", summary := "m", start := 100, endT := 200, hangoutLink := true }]
      = ([] : List Event) ∧
    Cal.get_upcoming_events (some { valid := true }) [] = ([] : List Event) :=
  ⟨rfl, rfl⟩

/-- C5, amended: a fetch with no usable credential yields the empty list,
indistinguishable from a successful empty result (only transport errors
propagate as exceptions, caught per user).  An empty fetched list makes the
cycle emit no notifications for that user; since the loop has no cancellation
path, the empty result is in particular never turned into cancellation
notifications. -/
theorem c5_fetch_amended (c : Cal.Credentials) (items : List Event) (st : BotState)
    (now : Int) (uid : Bool) :
    Cal.get_upcoming_events none items = Cal.get_upcoming_events (some c) [] ∧
    (scheduled_meetings_check st (Cal.get_upcoming_events none items) now uid).2 = [] :=
  ⟨rfl, rfl⟩

/-- C6, counterexample: an event whose start equals the current instant, not
yet recorded anywhere, triggers both an `UpcomingReminder` and a
`MeetingStarted` in the same cycle — the reminder window `0 ≤ start - now ≤
15 min` includes the boundary, so the claim that no `UpcomingReminder` is
emitted at `start == now` is false. -/
theorem c6_counterexample :
    (scheduled_meetings_check emptyBotState
      [{ id := "x", summary := "m", start := 1000, endT := 2000, hangoutLink := true }]
      1000 true).2
      = [Notification.upcomingReminder "x", Notification.meetingStarted "x"] := by
  decide

/-- C6, amended: at `start == now` the event satisfies both the reminder
condition (`0 ≤ start - now ≤ 900`, closed at 0) and the started condition
(`start ≤ now < end`), so a cycle seeing such an event (meet link present,
neither record existing, `USER_ID` set) emits the `UpcomingReminder` and then
the `MeetingStarted`, in that order. -/
theorem c6_boundary_amended (st : BotState) (e : Event) (now : Int)
    (hstarteq : e.start = now) (hend : now < e.endT) (hl : e.hangoutLink = true)
    (hpr : st.processed e.id = none) (hsn : st.started e.id = none) :
    (scheduled_meetings_check st [e] now true).2
      = [Notification.upcomingReminder e.id, Notification.meetingStarted e.id] := by
  have hns : (newPass now [e] st.known []).2 = [] := by
    apply np_no_emit
    intro e1 he1
    right
    rw [List.mem_singleton.1 he1]
    exact fun hc => absurd hc.1 (by omega)
  show (meetPass now true [e] st.processed st.started (newPass now [e] st.known []).2).2.2 = _
  rw [hns]
  have hrem : st.processed e.id = none ∧ 0 ≤ e.start - now ∧ e.start - now ≤ 900 :=
    ⟨hpr, by omega, by omega⟩
  have hstf : st.started e.id = none ∧ e.start ≤ now ∧ now < e.endT :=
    ⟨hsn, by omega, hend⟩
  simp only [meetPass]
  rw [if_pos hl, if_pos hrem, if_pos hstf]
  simp [hpr, hsn, hstarteq, hend, sub_self]

/-- C6, witness for the amended theorem at a concrete boundary instant. -/
theorem c6_witness :
    (scheduled_meetings_check emptyBotState
      [{ id := "b", summary := "m", start := 50, endT := 60, hangoutLink := true }]
      50 true).2
      = [Notification.upcomingReminder "b", Notification.meetingStarted "b"] :=
  c6_boundary_amended emptyBotState _ 50 rfl (by decide) rfl rfl rfl

/-- C3, evaluation at the failing input: the sqlite `known_events` table
(database.py lines 62-71) has PRIMARY KEY `event_id` alone, and
`add_known_event` writes with `INSERT OR REPLACE`, so after user "1" and then
user "2" add the same event id, a single row remains, owned by user "2", and
`is_event_known` no longer finds user "1"'s tracking — the claimed
per-(event_id, user_id) keying of writes does not hold and one user's state
overwrites the other's. -/
theorem c3_pk_overwrite :
    DB.is_event_known
        (DB.add_known_event [] "evt1" "standup" "s1" "e1" "1" "d1") "evt1" "1" = true ∧
    DB.is_event_known
        (DB.add_known_event (DB.add_known_event [] "evt1" "standup" "s1" "e1" "1" "d1")
          "evt1" "standup" "s1" "e1" "2" "d2") "evt1" "1" = false ∧
    (DB.add_known_event (DB.add_known_event [] "evt1" "standup" "s1" "e1" "1" "d1")
        "evt1" "standup" "s1" "e1" "2" "d2").length = 1 := by
  decide

/-- C7: once the reminder record (`processed_events` entry) exists for an
event id, no `UpcomingReminder` for that id is emitted by any number of
subsequent poll cycles that run before the record's start time, and the
record itself survives all of them — the cleanup pass only removes it 30
minutes after the start, never before.  (The reminder lead time is fixed at
15 minutes in the code, so the claimed (event_id, lead_minutes) pair
degenerates to the event id.) -/
theorem c7_reminder_monotone (st : BotState) (x : String) (r : ProcRec)
    (runs : List CycleInput)
    (hx : st.processed x = some r)
    (hbefore : ∀ c ∈ runs, c.now < r.startT) :
    (∀ n ∈ (runCycles st runs).2, n ≠ Notification.upcomingReminder x) ∧
      (runCycles st runs).1.processed x = some r := by
  induction runs generalizing st with
  | nil =>
    refine ⟨?_, hx⟩
    intro n hn
    cases hn
  | cons c cs ih =>
    have hstep : (scheduled_meetings_check st c.events c.now c.uidSet).1.processed x
        = some r := by
      have h1 : (meetPass c.now c.uidSet c.events st.processed st.started
          (newPass c.now c.events st.known []).2).1 x = some r := mp_proc_preserve hx
      show gcProcessed c.now (meetPass c.now c.uidSet c.events st.processed st.started
          (newPass c.now c.events st.known []).2).1 x = some r
      rw [gcProcessed_eq h1,
        if_neg (by have := hbefore c (List.mem_cons_self c cs); omega)]
    have hnone : ∀ n ∈ (scheduled_meetings_check st c.events c.now c.uidSet).2,
        n ≠ Notification.upcomingReminder x := by
      intro n hn
      have hn2 : n ∈ (meetPass c.now c.uidSet c.events st.processed st.started
          (newPass c.now c.events st.known []).2).2.2 := hn
      have hxs : (st.processed x).isSome = true := by
        rw [hx]
        rfl
      rcases mp_no_reminder hxs hn2 with h1 | h1
      · rcases np_emit_mem h1 with h2 | ⟨e, _, hne⟩
        · cases h2
        · rw [hne]
          exact fun hc => Notification.noConfusion hc
      · exact h1
    obtain ⟨ihns, ihst⟩ := ih (scheduled_meetings_check st c.events c.now c.uidSet).1 hstep
      (fun c1 hc1 => hbefore c1 (List.mem_cons_of_mem _ hc1))
    refine ⟨?_, ihst⟩
    intro n hn
    have hn2 : n ∈ (scheduled_meetings_check st c.events c.now c.uidSet).2 ++
        (runCycles (scheduled_meetings_check st c.events c.now c.uidSet).1 cs).2 := hn
    rcases List.mem_append.1 hn2 with h1 | h1
    · exact hnone n h1
    · exact ihns n h1

/-- C7, witness: with the reminder record present, a cycle before the start
time that lists the event again (inside the 15-minute window) emits no
further reminder and keeps the record. -/
theorem c7_witness :
    (∀ n ∈ (runCycles
        { known := emptyBotState.known,
          processed := upd emptyBotState.processed "x"
            { summary := "m", startT := 1000, notifiedAt := 0 },
          started := emptyBotState.started }
        [{ events := [{ id := "x", summary := "m", start := 1000, endT := 2000,
                        hangoutLink := true }], now := 500, uidSet := true }]).2,
      n ≠ Notification.upcomingReminder "x") ∧
    (runCycles
        { known := emptyBotState.known,
          processed := upd emptyBotState.processed "x"
            { summary := "m", startT := 1000, notifiedAt := 0 },
          started := emptyBotState.started }
        [{ events := [{ id := "x", summary := "m", start := 1000, endT := 2000,
                        hangoutLink := true }], now := 500, uidSet := true }]).1.processed "x"
      = some { summary := "m", startT := 1000, notifiedAt := 0 } :=
  c7_reminder_monotone _ "x" { summary := "m", startT := 1000, notifiedAt := 0 } _
    (by decide) (by decide)

/-- C10: every `started_events` record written by the poll loop carries no
end time, and the cleanup pass only removes records that do carry one whose
instant has passed; hence (first conjunct) any record newly created by a
cycle has no end time, and (second conjunct) a record without an end time
survives any sequence of further cycles unchanged — it persists for the
lifetime of the process. -/
theorem c10_started_never_collected :
    (∀ (st : BotState) (events : List Event) (now : Int) (uid : Bool) (x : String)
        (r : StartedRec),
      st.started x = none →
      (scheduled_meetings_check st events now uid).1.started x = some r →
      r.endT = none) ∧
    (∀ (st : BotState) (runs : List CycleInput) (x : String) (r : StartedRec),
      st.started x = some r → r.endT = none →
      (runCycles st runs).1.started x = some r) := by
  constructor
  · intro st events now uid x r h0 hres
    have h1 := @mp_started_none_endT now uid events st.processed st.started
      (newPass now events st.known []).2 x (Or.inl h0)
    have hres2 : gcStarted now (meetPass now uid events st.processed st.started
        (newPass now events st.known []).2).2.1 x = some r := hres
    rcases h1 with h1 | ⟨s, t, m, h1⟩
    · rw [gcStarted_none h1] at hres2
      cases hres2
    · rw [gcStarted_keep h1 rfl] at hres2
      injection hres2 with h2
      rw [← h2]
  · intro st runs x r hx hend
    induction runs generalizing st with
    | nil => exact hx
    | cons c cs ih =>
      show (runCycles (scheduled_meetings_check st c.events c.now c.uidSet).1 cs).1.started x
        = some r
      apply ih
      have h1 : (meetPass c.now c.uidSet c.events st.processed st.started
          (newPass c.now c.events st.known []).2).2.1 x = some r := mp_started_preserve hx
      show gcStarted c.now (meetPass c.now c.uidSet c.events st.processed st.started
          (newPass c.now c.events st.known []).2).2.1 x = some r
      exact gcStarted_keep h1 hend

/-- C10, witness: a loop-written started record (no end time) survives a
later cycle even when the meeting is long over. -/
theorem c10_witness :
    (runCycles
      { known := emptyBotState.known, processed := emptyBotState.processed,
        started := upd emptyBotState.started "x"
          { summary := "m", startT := 5, endT := none, notifiedAt := 6 } }
      [{ events := [], now := 1000000, uidSet := true }]).1.started "x"
      = some { summary := "m", startT := 5, endT := none, notifiedAt := 6 } :=
  c10_started_never_collected.2 _ _ "x" _ (by decide) rfl

/-- C8: the parsing policy of `safe_parse_datetime` on provider strings: a
datetime with a trailing `Z` is parsed as UTC; a datetime carrying an
explicit `±HH:MM` offset and a time component is parsed as-is; a date-only
string becomes midnight UTC; and when every parse attempt fails the current
UTC time is returned instead of an error — parsing is total. -/
theorem c8_parse_policy (y m d h mi s oh om : Nat) (sign : Bool) (nw : Parse.PyDatetime)
    (cs : List Char)
    (hy1 : 1 ≤ y) (hy : y ≤ 9999) (hm1 : 1 ≤ m) (hm : m ≤ 12) (hd1 : 1 ≤ d)
    (hd : d ≤ Parse.daysInMonth y m) (hh : h ≤ 23) (hmi : mi ≤ 59) (hs : s ≤ 59)
    (hoh : oh ≤ 23) (hom : om ≤ 59)
    (hf1 : Parse.fromisoformat (Parse.replaceAllZ cs) = none)
    (hf2 : Parse.fromisoformat cs = none) :
    Parse.safe_parse_datetime (Parse.fmtDateTime y m d h mi s ++ ['Z']) nw
        = { year := y, month := m, day := d, hour := h, minute := mi, second := s,
            tzOffset := some 0 } ∧
    Parse.safe_parse_datetime
        (Parse.fmtDateTime y m d h mi s ++ Parse.fmtOffset sign oh om) nw
        = { year := y, month := m, day := d, hour := h, minute := mi, second := s,
            tzOffset := some (Parse.offVal sign oh om) } ∧
    Parse.safe_parse_datetime (Parse.fmtDate y m d) nw
        = { year := y, month := m, day := d, hour := 0, minute := 0, second := 0,
            tzOffset := some 0 } ∧
    Parse.safe_parse_datetime cs nw = nw :=
  ⟨Parse.safe_parse_trailing_Z hy1 hy hm1 hm hd1 hd hh hmi hs,
   Parse.safe_parse_offset hy1 hy hm1 hm hd1 hd hh hmi hs hoh hom,
   Parse.safe_parse_dateonly hy1 hy hm1 hm hd1 hd,
   Parse.safe_parse_failure hf1 hf2⟩

/-- C8, witness at `2024-06-01T10:00:00` (with `Z`, with `-03:00`, date-only)
and the unparseable string `garbage`. -/
theorem c8_witness :
    Parse.safe_parse_datetime (Parse.fmtDateTime 2024 6 1 10 0 0 ++ ['Z'])
        { year := 2024, month := 6, day := 1, hour := 12, minute := 0, second := 0,
          tzOffset := some 0 }
        = { year := 2024, month := 6, day := 1, hour := 10, minute := 0, second := 0,
            tzOffset := some 0 } ∧
    Parse.safe_parse_datetime
        (Parse.fmtDateTime 2024 6 1 10 0 0 ++ Parse.fmtOffset false 3 0)
        { year := 2024, month := 6, day := 1, hour := 12, minute := 0, second := 0,
          tzOffset := some 0 }
        = { year := 2024, month := 6, day := 1, hour := 10, minute := 0, second := 0,
            tzOffset := some (Parse.offVal false 3 0) } ∧
    Parse.safe_parse_datetime (Parse.fmtDate 2024 6 1)
        { year := 2024, month := 6, day := 1, hour := 12, minute := 0, second := 0,
          tzOffset := some 0 }
        = { year := 2024, month := 6, day := 1, hour := 0, minute := 0, second := 0,
            tzOffset := some 0 } ∧
    Parse.safe_parse_datetime ['g', 'a', 'r', 'b', 'a', 'g', 'e']
        { year := 2024, month := 6, day := 1, hour := 12, minute := 0, second := 0,
          tzOffset := some 0 }
        = { year := 2024, month := 6, day := 1, hour := 12, minute := 0, second := 0,
            tzOffset := some 0 } :=
  c8_parse_policy 2024 6 1 10 0 0 3 0 false _ _ (by decide) (by decide) (by decide)
    (by decide) (by decide) (by decide) (by decide) (by decide) (by decide) (by decide)
    (by decide) (by decide) (by decide)

/-- C9, counterexample: the string `2024-06-01T10:00:00-03:00` contains a
`'T'` and a hyphen, does not end with `'Z'` and carries no `'+'`, yet
`safe_parse_datetime` returns a timezone-aware value (offset -180 minutes),
not a naive one — the claim's universal statement fails on strings with a
negative offset suffix. -/
theorem c9_counterexample :
    (Parse.containsChar 'T'
        (Parse.fmtDateTime 2024 6 1 10 0 0 ++ Parse.fmtOffset false 3 0) = true ∧
     Parse.containsChar '-'
        (Parse.fmtDateTime 2024 6 1 10 0 0 ++ Parse.fmtOffset false 3 0) = true ∧
     Parse.endsWith 'Z'
        (Parse.fmtDateTime 2024 6 1 10 0 0 ++ Parse.fmtOffset false 3 0) = false ∧
     Parse.containsChar '+'
        (Parse.fmtDateTime 2024 6 1 10 0 0 ++ Parse.fmtOffset false 3 0) = false) ∧
    (Parse.safe_parse_datetime
        (Parse.fmtDateTime 2024 6 1 10 0 0 ++ Parse.fmtOffset false 3 0)
        { year := 2024, month := 6, day := 1, hour := 12, minute := 0, second := 0,
          tzOffset := some 0 }).tzOffset = some (-180) := by
  decide

/-- C9, amended: for every provider string of the datetime form that carries
a time component but no offset suffix at all (and hence no trailing `Z` and
no `+`), `safe_parse_datetime` returns a naive datetime (`tzinfo = None`),
unlike the other successful branches, and the comparison `start_dt > now`
against the timezone-aware current time then raises `TypeError`, which aborts
that user's processing for the cycle (caught by the per-user handler at
bot.py line 356). -/
theorem c9_naive_amended (y m d h mi s : Nat) (nw : Parse.PyDatetime)
    (hy1 : 1 ≤ y) (hy : y ≤ 9999) (hm1 : 1 ≤ m) (hm : m ≤ 12) (hd1 : 1 ≤ d)
    (hd : d ≤ Parse.daysInMonth y m) (hh : h ≤ 23) (hmi : mi ≤ 59) (hs : s ≤ 59)
    (hnw : nw.tzOffset = some 0) :
    (Parse.containsChar 'T' (Parse.fmtDateTime y m d h mi s) = true ∧
     Parse.endsWith 'Z' (Parse.fmtDateTime y m d h mi s) = false ∧
     Parse.containsChar '+' (Parse.fmtDateTime y m d h mi s) = false) ∧
    Parse.safe_parse_datetime (Parse.fmtDateTime y m d h mi s) nw
      = { year := y, month := m, day := d, hour := h, minute := mi, second := s,
          tzOffset := none } ∧
    Parse.pyGT (Parse.safe_parse_datetime (Parse.fmtDateTime y m d h mi s) nw) nw
      = Parse.PyCmp.typeError := by
  have hmain := @Parse.safe_parse_naive y m d h mi s nw hy1 hy hm1 hm hd1 hd hh hmi hs
  refine ⟨⟨?_, ?_, ?_⟩, hmain, ?_⟩
  · simp [Parse.containsChar, Parse.fmtDateTime, Parse.fmtDate, Parse.fmt4, Parse.fmt2]
  · simp [Parse.fmtDateTime, Parse.fmtDate, Parse.fmt4, Parse.fmt2, Parse.endsWith]
  · simp [Parse.containsChar, Parse.fmtDateTime, Parse.fmtDate, Parse.fmt4, Parse.fmt2]
  · rw [hmain]
    simp [Parse.pyGT, hnw]

/-- C9, witness for the amended theorem at `2024-06-01T10:00:00`. -/
theorem c9_witness :
    (Parse.containsChar 'T' (Parse.fmtDateTime 2024 6 1 10 0 0) = true ∧
     Parse.endsWith 'Z' (Parse.fmtDateTime 2024 6 1 10 0 0) = false ∧
     Parse.containsChar '+' (Parse.fmtDateTime 2024 6 1 10 0 0) = false) ∧
    Parse.safe_parse_datetime (Parse.fmtDateTime 2024 6 1 10 0 0)
        { year := 2024, month := 6, day := 1, hour := 12, minute := 0, second := 0,
          tzOffset := some 0 }
      = { year := 2024, month := 6, day := 1, hour := 10, minute := 0, second := 0,
          tzOffset := none } ∧
    Parse.pyGT
        (Parse.safe_parse_datetime (Parse.fmtDateTime 2024 6 1 10 0 0)
          { year := 2024, month := 6, day := 1, hour := 12, minute := 0, second := 0,
            tzOffset := some 0 })
        { year := 2024, month := 6, day := 1, hour := 12, minute := 0, second := 0,
          tzOffset := some 0 }
      = Parse.PyCmp.typeError :=
  c9_naive_amended 2024 6 1 10 0 0 _ (by decide) (by decide) (by decide) (by decide)
    (by decide) (by decide) (by decide) (by decide) (by decide) rfl

end TgBot
